import Mathlib

/-!
Verification of the hypetrigger frame-dispatch pipeline and image primitives.

Shallow embedding of the Rust sources in `src/lib-rust/src/`:
- `photon.rs` (`rgb24_to_rgba32`, `rgba32_to_rgb24`, `Crop::apply`,
  `ensure_minimum_size`, `ThresholdFilter::apply`),
- `threshold.rs` (`rgb2lab`, `delta_e`, `threshold_color_distance_rgba`),
- `pipeline_simple.rs` (`Hypetrigger::run`'s frame-dispatch loop),
- `async_trigger.rs` (`AsyncTrigger::on_frame`, `TriggerThread::spawn/stop`).

Modelling conventions:
- `u8`/`u32`/`u64` values are `Nat`; a Rust `vec[i]` access that can panic is
  an `Option`-valued lookup, and a loop that would panic returns `none`.
- Rust `f32`/`f64` arithmetic on image geometry is modelled exactly over `ℚ`;
  the cast `as u32` of a nonnegative float is `Int.floor` followed by the
  u32 saturation `min · u32Max` (Rust float-to-int casts saturate).
- The perceptual color distance (`f64` in the source) is modelled over `ℝ`,
  since it uses `powf` and `sqrt`.
- mpsc channels are modelled by their queue/connected state; a blocking
  `send` on a full-but-connected channel is modelled as (eventually)
  succeeding, and fails exactly when the receiver was dropped.
-/

namespace Hypetrigger

/-! ## photon.rs: `rgb24_to_rgba32` and `rgba32_to_rgb24`

```rust
pub fn rgb24_to_rgba32(vec: Vec<u8>) -> Vec<u8> {
    let mut new_vec = Vec::with_capacity(vec.len() * 4 / 3);
    for i in (0..vec.len()).step_by(3) {
        new_vec.push(vec[i]);
        new_vec.push(vec[i + 1]);
        new_vec.push(vec[i + 2]);
        new_vec.push(255);
    }
    new_vec
}
```
The loop body indexes `vec[i]`, `vec[i+1]`, `vec[i+2]`; an out-of-bounds
index panics, which the model renders as `none`. -/

def rgb24_to_rgba32_go (v : List ℕ) (i : ℕ) : Option (List ℕ) :=
  if i < v.length then
    match v[i]?, v[i+1]?, v[i+2]? with
    | some a, some b, some c =>
        (rgb24_to_rgba32_go v (i + 3)).map (fun rest => a :: b :: c :: 255 :: rest)
    | _, _, _ => none
  else some []
termination_by v.length - i
decreasing_by omega

def rgb24_to_rgba32 (v : List ℕ) : Option (List ℕ) :=
  rgb24_to_rgba32_go v 0

/-- `rgba32_to_rgb24` from photon.rs: steps by 4, reads three bytes per
pixel, drops the alpha byte. -/
def rgba32_to_rgb24_go (v : List ℕ) (i : ℕ) : Option (List ℕ) :=
  if i < v.length then
    match v[i]?, v[i+1]?, v[i+2]? with
    | some a, some b, some c =>
        (rgba32_to_rgb24_go v (i + 4)).map (fun rest => a :: b :: c :: rest)
    | _, _, _ => none
  else some []
termination_by v.length - i
decreasing_by omega

def rgba32_to_rgb24 (v : List ℕ) : Option (List ℕ) :=
  rgba32_to_rgb24_go v 0

/-! ## threshold.rs: CIELAB color distance and the threshold filter -/

/-- `photon_rs::Rgb`: an 8-bit RGB color (bytes as `Nat`). -/
structure Rgb where
  r : ℕ
  g : ℕ
  b : ℕ

/-- `rgb2lab` from threshold.rs, with `f64` arithmetic modelled over `ℝ`
(`powf` is `Real.rpow`). -/
noncomputable def rgb2lab (c : Rgb) : ℝ × ℝ × ℝ :=
  let r0 : ℝ := (c.r : ℝ) / 255
  let g0 : ℝ := (c.g : ℝ) / 255
  let b0 : ℝ := (c.b : ℝ) / 255
  let r1 : ℝ := if 0.04045 < r0 then ((r0 + 0.055) / 1.055) ^ (2.4 : ℝ) else r0 / 12.92
  let g1 : ℝ := if 0.04045 < g0 then ((g0 + 0.055) / 1.055) ^ (2.4 : ℝ) else g0 / 12.92
  let b1 : ℝ := if 0.04045 < b0 then ((b0 + 0.055) / 1.055) ^ (2.4 : ℝ) else b0 / 12.92
  let x0 : ℝ := (r1 * 0.4124 + g1 * 0.3576 + b1 * 0.1805) / 0.95047
  let y0 : ℝ := (r1 * 0.2126 + g1 * 0.7152 + b1 * 0.0722) / 1.00000
  let z0 : ℝ := (r1 * 0.0193 + g1 * 0.1192 + b1 * 0.9505) / 1.08883
  let x1 : ℝ := if 0.008856 < x0 then x0 ^ ((1 : ℝ) / 3) else 7.787 * x0 + 16 / 116
  let y1 : ℝ := if 0.008856 < y0 then y0 ^ ((1 : ℝ) / 3) else 7.787 * y0 + 16 / 116
  let z1 : ℝ := if 0.008856 < z0 then z0 ^ ((1 : ℝ) / 3) else 7.787 * z0 + 16 / 116
  (116 * y1 - 16, 500 * (x1 - y1), 200 * (y1 - z1))

/-- `delta_e` from threshold.rs (a CIE94-style ΔE). -/
noncomputable def delta_e (ca cb : Rgb) : ℝ :=
  let lab_a := rgb2lab ca
  let lab_b := rgb2lab cb
  let delta_l := lab_a.1 - lab_b.1
  let delta_a := lab_a.2.1 - lab_b.2.1
  let delta_b := lab_a.2.2 - lab_b.2.2
  let c1 := Real.sqrt (lab_a.2.1 * lab_a.2.1 + lab_a.2.2 * lab_a.2.2)
  let c2 := Real.sqrt (lab_b.2.1 * lab_b.2.1 + lab_b.2.2 * lab_b.2.2)
  let delta_c := c1 - c2
  let delta_h2 := delta_a * delta_a + delta_b * delta_b - delta_c * delta_c
  let delta_h := if delta_h2 < 0 then 0 else Real.sqrt delta_h2
  let sc := 1 + 0.045 * c1
  let sh := 1 + 0.015 * c1
  let delta_lklsl := delta_l / 1
  let delta_ckcsc := delta_c / sc
  let delta_hkhsh := delta_h / sh
  let i := delta_lklsl * delta_lklsl + delta_ckcsc * delta_ckcsc + delta_hkhsh * delta_hkhsh
  if i < 0 then 0 else Real.sqrt i

/-- The per-pixel branch of `threshold_color_distance_rgba`:
`if delta_e(&px_color, color) >= threshold { 255 } else { 0 }`. -/
noncomputable def thresholdPixel (color : Rgb) (threshold : ℝ) (r g b : ℕ) : ℕ :=
  if threshold ≤ delta_e ⟨r, g, b⟩ color then 255 else 0

/-- The loop of `threshold_color_distance_rgba`: steps by 4, reads three
bytes per pixel, writes the binarized value three times plus alpha 255. -/
noncomputable def threshold_go (color : Rgb) (threshold : ℝ) (v : List ℕ) (i : ℕ) :
    Option (List ℕ) :=
  if i < v.length then
    match v[i]?, v[i+1]?, v[i+2]? with
    | some r, some g, some b =>
        (threshold_go color threshold v (i + 4)).map
          (fun rest =>
            thresholdPixel color threshold r g b :: thresholdPixel color threshold r g b ::
              thresholdPixel color threshold r g b :: 255 :: rest)
    | _, _, _ => none
  else some []
termination_by v.length - i
decreasing_by omega

noncomputable def threshold_color_distance_rgba (v : List ℕ) (color : Rgb) (threshold : ℝ) :
    Option (List ℕ) :=
  threshold_go color threshold v 0

/-- `photon_rs::PhotonImage`: raw RGBA pixels plus dimensions. -/
structure PhotonImage where
  raw_pixels : List ℕ
  width : ℕ
  height : ℕ

/-- `ThresholdFilter` from photon.rs (`threshold` is a `u8`, cast to `f64`
when applied). -/
structure ThresholdFilter where
  r : ℕ
  g : ℕ
  b : ℕ
  threshold : ℕ

/-- `ThresholdFilter::apply`: binarize the raw pixels at distance
`threshold` from the target color; dimensions unchanged. -/
noncomputable def ThresholdFilter.apply (f : ThresholdFilter) (image : PhotonImage) :
    Option PhotonImage :=
  (threshold_color_distance_rgba image.raw_pixels ⟨f.r, f.g, f.b⟩ (f.threshold : ℝ)).map
    (fun px => ⟨px, image.width, image.height⟩)

/-! ## photon.rs: `Crop::apply` pixel rectangle and `ensure_minimum_size` -/

/-- `u32::MAX`; Rust float-to-`u32` casts saturate here. -/
def u32Max : ℕ := 4294967295

/-- Model of Rust `x as u32` for a nonnegative-or-small `f64`/`f32` value
`x : ℚ`: truncate toward zero (negative values clamp to 0) and saturate at
`u32::MAX`. -/
def ratToU32 (q : ℚ) : ℕ :=
  min (Int.toNat ⌊q⌋) u32Max

/-- `Crop` from photon.rs: four percentages of the source image. -/
structure Crop where
  left_percent : ℚ
  top_percent : ℚ
  width_percent : ℚ
  height_percent : ℚ

/-- A pixel rectangle. -/
structure Rect where
  x1 : ℕ
  y1 : ℕ
  x2 : ℕ
  y2 : ℕ
  deriving DecidableEq

/-- The pixel rectangle computed by `Crop::apply` (photon.rs lines 46-54;
the identical arithmetic appears in pipeline_simple.rs lines 165-173):
`x1 = (width * (left/100)) as u32`, `x2 = (x1 as f64 + width_percent*width/100) as u32`,
and likewise for `y`. -/
def Crop.rect (c : Crop) (width height : ℕ) : Rect :=
  let x1 := ratToU32 ((width : ℚ) * (c.left_percent / 100))
  let y1 := ratToU32 ((height : ℚ) * (c.top_percent / 100))
  let x2 := ratToU32 ((x1 : ℚ) + c.width_percent * (width : ℚ) / 100)
  let y2 := ratToU32 ((y1 : ℚ) + c.height_percent * (height : ℚ) / 100)
  ⟨x1, y1, x2, y2⟩

/-- First branch of `ensure_minimum_size`: if `width < min_size`, scale both
sides by `min_size / width` (source does this in `f32`; modelled exactly). -/
def minSizeFirstPass (width height min_size : ℕ) : ℕ × ℕ :=
  if width < min_size then
    (ratToU32 ((width : ℚ) * ((min_size : ℚ) / (width : ℚ))),
     ratToU32 ((height : ℚ) * ((min_size : ℚ) / (width : ℚ))))
  else (width, height)

/-- `ensure_minimum_size` from photon.rs: the second branch re-tests the
(possibly already updated) height and rescales both sides by
`min_size / height`. Returns the output dimensions. -/
def ensure_minimum_size (width height min_size : ℕ) : ℕ × ℕ :=
  let p := minSizeFirstPass width height min_size
  if p.2 < min_size then
    (ratToU32 ((p.1 : ℚ) * ((min_size : ℚ) / (p.2 : ℚ))),
     ratToU32 ((p.2 : ℚ) * ((min_size : ℚ) / (p.2 : ℚ))))
  else p

/-- The claim's "aspect ratio equals the input's to within one pixel":
some single uniform scale factor maps the input dimensions to within one
pixel of the output dimensions. -/
def aspectWithinOnePixel (W H Wo Ho : ℕ) : Prop :=
  ∃ s : ℚ, 0 < s ∧ |(W : ℚ) * s - (Wo : ℚ)| ≤ 1 ∧ |(H : ℚ) * s - (Ho : ℚ)| ≤ 1

/-! ## pipeline_simple.rs: the frame-dispatch loop of `Hypetrigger::run` -/

/-- `Frame` from pipeline_simple.rs. `timestamp` is
`frame_num as f64 / fps as f64`, modelled over `ℚ`. -/
structure Frame where
  image : List ℕ
  frame_num : ℕ
  timestamp : ℚ

/-- A trigger's `on_frame`, as seen by the dispatch loop: a result per
frame. (The loop at pipeline_simple.rs line 552 discards this result.) -/
def TriggerFn : Type := Frame → Except String Unit

/-- The inner loop `for trigger in &self.triggers { trigger.on_frame(&frame); }`:
every registered trigger is called in order; results are collected here
(the source drops them on the floor). -/
def invokeAll : List TriggerFn → Frame → List (Except String Unit)
  | [], _ => []
  | t :: rest, frame => t frame :: invokeAll rest frame

/-- `RgbImage::from_vec(w, h, buf)`: succeeds exactly when the buffer has
the right byte count. -/
def rgbImageFromVec (w h : ℕ) (buf : List ℕ) : Option (List ℕ) :=
  if buf.length = w * h * 3 then some buf else none

/-- The `while ffmpeg_stdout.read_exact(&mut buffer).is_ok()` loop of
`Hypetrigger::run` (lines 536-556): reads exact `w*h*3`-byte frames from
the stdout stream, builds a `Frame` with the running `frame_num` and
`timestamp = frame_num / fps`, and invokes every trigger on it. Returns
the loop's result together with the trace of delivered frames and the
per-frame trigger results.

(`read_exact` on an empty buffer always succeeds, so the Rust loop does
not terminate when `w*h = 0`; the guard `0 < w*h*3` restricts the model
to terminating runs.) -/
def dispatchGo (w h fps : ℕ) (triggers : List TriggerFn) (stream : List ℕ) (frame_num : ℕ) :
    Except String Unit × List (Frame × List (Except String Unit)) :=
  if _hread : 0 < w * h * 3 ∧ w * h * 3 ≤ stream.length then
    match rgbImageFromVec w h (stream.take (w * h * 3)) with
    | none => (Except.error "unable to convert vec to imagebuffer (size mismatch)", [])
    | some image =>
        let frame : Frame := ⟨image, frame_num, (frame_num : ℚ) / (fps : ℚ)⟩
        let results := invokeAll triggers frame
        let rest := dispatchGo w h fps triggers (stream.drop (w * h * 3)) (frame_num + 1)
        (rest.1, (frame, results) :: rest.2)
  else (Except.ok (), [])
termination_by stream.length
decreasing_by simp only [List.length_drop]; omega

/-- The sequence of full `w*h*3`-byte frames at the front of the stdout
stream (the frames the dispatch loop reads). -/
def streamChunks (size : ℕ) (stream : List ℕ) : List (List ℕ) :=
  if _hread : 0 < size ∧ size ≤ stream.length then
    stream.take size :: streamChunks size (stream.drop size)
  else []
termination_by stream.length
decreasing_by simp only [List.length_drop]; omega

/-- `Hypetrigger::run` from the point where it blocks on the output-size
channel (line 522): `published` is the value the stderr thread sent before
its channel closed (`none` models `recv()` failing because the decoder
exited before a size was parsed). On `none`, `run` returns the error of
line 523 and the dispatch loop is never entered. -/
def hypetriggerRun (fps : ℕ) (triggers : List TriggerFn) (published : Option (ℕ × ℕ))
    (stream : List ℕ) : Except String Unit × List (Frame × List (Except String Unit)) :=
  match published with
  | none =>
      (Except.error
        "ffmpeg exited before sending output size. This is likely due to an invalid input file.",
       [])
  | some (w, h) => dispatchGo w h fps triggers stream 0

/-! ## async_trigger.rs: `AsyncTrigger` and `TriggerThread` -/

/-- `TriggerCommand`: the packet carries the frame and the (opaque,
reference-counted) trigger handle, modelled by an id. -/
inductive TriggerCommand where
  | Stop : TriggerCommand
  | Packet : Frame → ℕ → TriggerCommand

/-- The sender-visible state of a `std::sync::mpsc::sync_channel`:
its capacity, queued messages, and whether the receiver is still alive. -/
structure SyncChannel where
  capacity : ℕ
  queue : List TriggerCommand
  connected : Bool

/-- `SyncSender::send`: blocks (and hence, in this state model, eventually
succeeds) while the receiver lives — even when `queue.length = capacity` —
and fails exactly when the receiver was dropped. The error's `Display`
string is std's `"sending on a closed channel"`. -/
def SyncChannel.send (ch : SyncChannel) (cmd : TriggerCommand) : Except String SyncChannel :=
  if ch.connected then Except.ok { ch with queue := ch.queue ++ [cmd] }
  else Except.error "sending on a closed channel"

/-- `AsyncTrigger`: wraps an inner trigger (opaque handle id) and the
sender side of a worker's channel. -/
structure AsyncTrigger where
  trigger : ℕ

/-- `AsyncTrigger::on_frame`: sends a `Packet` carrying the frame and the
inner trigger; `map_err(Error::from_std)` keeps the send error's message. -/
def AsyncTrigger.on_frame (t : AsyncTrigger) (ch : SyncChannel) (frame : Frame) :
    Except String SyncChannel :=
  ch.send (TriggerCommand.Packet frame t.trigger)

/-- The channel created by `TriggerThread::spawn`:
`sync_channel::<TriggerCommand>(100)` with a live receiver. -/
def TriggerThread.spawnChannel : SyncChannel :=
  ⟨100, [], true⟩

/-- `TriggerThread::stop`:
```rust
self.tx.send(TriggerCommand::Stop)?;
self.join_handle.join().map_err(|e| format!("{:?}", e))?;
Ok(())
```
`joinResult` is the outcome of `join` (an error only if the worker
panicked). Note the `?` on `send`: a failed send is propagated, not
swallowed. -/
def TriggerThread.stop (ch : SyncChannel) (joinResult : Except String Unit) :
    Except String Unit :=
  match ch.send TriggerCommand.Stop with
  | Except.error e => Except.error e
  | Except.ok _ =>
      match joinResult with
      | Except.error e => Except.error e
      | Except.ok _ => Except.ok ()

/-! ## Supporting lemmas -/

theorem invokeAll_eq_map (ts : List TriggerFn) (f : Frame) :
    invokeAll ts f = ts.map (fun t => t f) := by
  induction ts with
  | nil => rfl
  | cons t rest ih => simp [invokeAll, ih]

theorem invokeAll_length (ts : List TriggerFn) (f : Frame) :
    (invokeAll ts f).length = ts.length := by
  rw [invokeAll_eq_map, List.length_map]

theorem rgb24_go_stop (v : List ℕ) (i : ℕ) (hi : v.length ≤ i) :
    rgb24_to_rgba32_go v i = some [] := by
  rw [rgb24_to_rgba32_go, if_neg (by omega)]

theorem rgb24_go_shift_aux (x : ℕ) (v : List ℕ) :
    ∀ k i, v.length ≤ i + k →
      rgb24_to_rgba32_go (x :: v) (i + 1) = rgb24_to_rgba32_go v i := by
  intro k
  induction k with
  | zero =>
      intro i hi
      rw [rgb24_go_stop (x :: v) (i + 1) (by simp; omega), rgb24_go_stop v i (by omega)]
  | succ k ih =>
      intro i hi
      by_cases h : i < v.length
      · conv_lhs => rw [rgb24_to_rgba32_go]
        conv_rhs => rw [rgb24_to_rgba32_go]
        rw [if_pos (show i + 1 < (x :: v).length by simp; omega), if_pos h]
        simp only [show i + 1 + 2 = i + 2 + 1 from rfl, show i + 1 + 3 = i + 3 + 1 from rfl,
          List.getElem?_cons_succ, ih (i + 3) (by omega)]
      · rw [rgb24_go_stop (x :: v) (i + 1) (by simp; omega), rgb24_go_stop v i (by omega)]

theorem rgb24_go_shift (x : ℕ) (v : List ℕ) (i : ℕ) :
    rgb24_to_rgba32_go (x :: v) (i + 1) = rgb24_to_rgba32_go v i :=
  rgb24_go_shift_aux x v v.length i (by omega)

theorem rgb24_go_shift3 (a b c : ℕ) (w : List ℕ) (i : ℕ) :
    rgb24_to_rgba32_go (a :: b :: c :: w) (i + 3) = rgb24_to_rgba32_go w i := by
  rw [show i + 3 = i + 2 + 1 from rfl, rgb24_go_shift, show i + 2 = i + 1 + 1 from rfl,
    rgb24_go_shift, rgb24_go_shift]

theorem rgb24_nil : rgb24_to_rgba32 [] = some [] := by
  rw [rgb24_to_rgba32]
  exact rgb24_go_stop [] 0 (by simp)

theorem rgb24_one (a : ℕ) : rgb24_to_rgba32 [a] = none := by
  rw [rgb24_to_rgba32, rgb24_to_rgba32_go, if_pos (by simp)]
  simp

theorem rgb24_two (a b : ℕ) : rgb24_to_rgba32 [a, b] = none := by
  rw [rgb24_to_rgba32, rgb24_to_rgba32_go, if_pos (by simp)]
  simp

theorem rgb24_cons3 (a b c : ℕ) (w : List ℕ) :
    rgb24_to_rgba32 (a :: b :: c :: w) =
      (rgb24_to_rgba32 w).map (fun rest => a :: b :: c :: 255 :: rest) := by
  rw [rgb24_to_rgba32, rgb24_to_rgba32]
  conv_lhs => rw [rgb24_to_rgba32_go]
  rw [if_pos (show (0 : ℕ) < (a :: b :: c :: w).length by simp)]
  rw [rgb24_go_shift3]
  simp only [show (0 : ℕ) + 2 = 0 + 1 + 1 from rfl, List.getElem?_cons_succ,
    List.getElem?_cons_zero]

theorem rgba32_go_stop (v : List ℕ) (i : ℕ) (hi : v.length ≤ i) :
    rgba32_to_rgb24_go v i = some [] := by
  rw [rgba32_to_rgb24_go, if_neg (by omega)]

theorem rgba32_go_shift_aux (x : ℕ) (v : List ℕ) :
    ∀ k i, v.length ≤ i + k →
      rgba32_to_rgb24_go (x :: v) (i + 1) = rgba32_to_rgb24_go v i := by
  intro k
  induction k with
  | zero =>
      intro i hi
      rw [rgba32_go_stop (x :: v) (i + 1) (by simp; omega), rgba32_go_stop v i (by omega)]
  | succ k ih =>
      intro i hi
      by_cases h : i < v.length
      · conv_lhs => rw [rgba32_to_rgb24_go]
        conv_rhs => rw [rgba32_to_rgb24_go]
        rw [if_pos (show i + 1 < (x :: v).length by simp; omega), if_pos h]
        simp only [show i + 1 + 2 = i + 2 + 1 from rfl, show i + 1 + 4 = i + 4 + 1 from rfl,
          List.getElem?_cons_succ, ih (i + 4) (by omega)]
      · rw [rgba32_go_stop (x :: v) (i + 1) (by simp; omega), rgba32_go_stop v i (by omega)]

theorem rgba32_go_shift (x : ℕ) (v : List ℕ) (i : ℕ) :
    rgba32_to_rgb24_go (x :: v) (i + 1) = rgba32_to_rgb24_go v i :=
  rgba32_go_shift_aux x v v.length i (by omega)

theorem rgba32_go_shift4 (a b c d : ℕ) (w : List ℕ) (i : ℕ) :
    rgba32_to_rgb24_go (a :: b :: c :: d :: w) (i + 4) = rgba32_to_rgb24_go w i := by
  rw [show i + 4 = i + 3 + 1 from rfl, rgba32_go_shift, show i + 3 = i + 2 + 1 from rfl,
    rgba32_go_shift, show i + 2 = i + 1 + 1 from rfl, rgba32_go_shift, rgba32_go_shift]

theorem rgba32_nil : rgba32_to_rgb24 [] = some [] := by
  rw [rgba32_to_rgb24]
  exact rgba32_go_stop [] 0 (by simp)

theorem rgba32_cons4 (a b c d : ℕ) (w : List ℕ) :
    rgba32_to_rgb24 (a :: b :: c :: d :: w) =
      (rgba32_to_rgb24 w).map (fun rest => a :: b :: c :: rest) := by
  rw [rgba32_to_rgb24, rgba32_to_rgb24]
  conv_lhs => rw [rgba32_to_rgb24_go]
  rw [if_pos (show (0 : ℕ) < (a :: b :: c :: d :: w).length by simp)]
  rw [rgba32_go_shift4]
  simp only [show (0 : ℕ) + 2 = 0 + 1 + 1 from rfl, List.getElem?_cons_succ,
    List.getElem?_cons_zero]

theorem threshold_go_stop (color : Rgb) (t : ℝ) (v : List ℕ) (i : ℕ) (hi : v.length ≤ i) :
    threshold_go color t v i = some [] := by
  rw [threshold_go, if_neg (by omega)]

theorem threshold_go_shift_aux (color : Rgb) (t : ℝ) (x : ℕ) (v : List ℕ) :
    ∀ k i, v.length ≤ i + k →
      threshold_go color t (x :: v) (i + 1) = threshold_go color t v i := by
  intro k
  induction k with
  | zero =>
      intro i hi
      rw [threshold_go_stop color t (x :: v) (i + 1) (by simp; omega),
        threshold_go_stop color t v i (by omega)]
  | succ k ih =>
      intro i hi
      by_cases h : i < v.length
      · conv_lhs => rw [threshold_go]
        conv_rhs => rw [threshold_go]
        rw [if_pos (show i + 1 < (x :: v).length by simp; omega), if_pos h]
        simp only [show i + 1 + 2 = i + 2 + 1 from rfl, show i + 1 + 4 = i + 4 + 1 from rfl,
          List.getElem?_cons_succ, ih (i + 4) (by omega)]
      · rw [threshold_go_stop color t (x :: v) (i + 1) (by simp; omega),
          threshold_go_stop color t v i (by omega)]

theorem threshold_go_shift (color : Rgb) (t : ℝ) (x : ℕ) (v : List ℕ) (i : ℕ) :
    threshold_go color t (x :: v) (i + 1) = threshold_go color t v i :=
  threshold_go_shift_aux color t x v v.length i (by omega)

theorem threshold_go_shift4 (color : Rgb) (t : ℝ) (a b c d : ℕ) (w : List ℕ) (i : ℕ) :
    threshold_go color t (a :: b :: c :: d :: w) (i + 4) = threshold_go color t w i := by
  rw [show i + 4 = i + 3 + 1 from rfl, threshold_go_shift, show i + 3 = i + 2 + 1 from rfl,
    threshold_go_shift, show i + 2 = i + 1 + 1 from rfl, threshold_go_shift,
    threshold_go_shift]

theorem threshold_nil (color : Rgb) (t : ℝ) :
    threshold_color_distance_rgba [] color t = some [] := by
  rw [threshold_color_distance_rgba]
  exact threshold_go_stop color t [] 0 (by simp)

theorem threshold_cons4 (color : Rgb) (t : ℝ) (a b c d : ℕ) (w : List ℕ) :
    threshold_color_distance_rgba (a :: b :: c :: d :: w) color t =
      (threshold_color_distance_rgba w color t).map
        (fun rest =>
          thresholdPixel color t a b c :: thresholdPixel color t a b c ::
            thresholdPixel color t a b c :: 255 :: rest) := by
  rw [threshold_color_distance_rgba, threshold_color_distance_rgba]
  conv_lhs => rw [threshold_go]
  rw [if_pos (show (0 : ℕ) < (a :: b :: c :: d :: w).length by simp)]
  rw [threshold_go_shift4]
  simp only [show (0 : ℕ) + 2 = 0 + 1 + 1 from rfl, List.getElem?_cons_succ,
    List.getElem?_cons_zero]

theorem rgb24_some_of_mod3_aux :
    ∀ k (v : List ℕ), v.length ≤ k → v.length % 3 = 0 →
      ∃ out, rgb24_to_rgba32 v = some out ∧ out.length = 4 * v.length / 3 ∧
        rgba32_to_rgb24 out = some v := by
  intro k
  induction k with
  | zero =>
      intro v hk _
      have hv : v = [] := List.eq_nil_of_length_eq_zero (by omega)
      subst hv
      exact ⟨[], rgb24_nil, by simp, rgba32_nil⟩
  | succ k ih =>
      intro v hk hmod
      match v with
      | [] => exact ⟨[], rgb24_nil, by simp, rgba32_nil⟩
      | [a] => simp at hmod
      | [a, b] => simp at hmod
      | a :: b :: c :: w =>
          have hw : w.length ≤ k := by simp at hk; omega
          have hwmod : w.length % 3 = 0 := by simp at hmod ⊢; omega
          obtain ⟨out, ho, hl, hr⟩ := ih w hw hwmod
          refine ⟨a :: b :: c :: 255 :: out, ?_, ?_, ?_⟩
          · rw [rgb24_cons3, ho]
            rfl
          · simp at hl ⊢
            omega
          · rw [rgba32_cons4, hr]
            rfl

theorem rgb24_some_of_mod3 (v : List ℕ) (hmod : v.length % 3 = 0) :
    ∃ out, rgb24_to_rgba32 v = some out ∧ out.length = 4 * v.length / 3 ∧
      rgba32_to_rgb24 out = some v :=
  rgb24_some_of_mod3_aux v.length v le_rfl hmod

theorem rgb24_none_of_not_mod3_aux :
    ∀ k (v : List ℕ), v.length ≤ k → v.length % 3 ≠ 0 → rgb24_to_rgba32 v = none := by
  intro k
  induction k with
  | zero =>
      intro v hk hmod
      have hv : v = [] := List.eq_nil_of_length_eq_zero (by omega)
      subst hv
      simp at hmod
  | succ k ih =>
      intro v hk hmod
      match v with
      | [] => simp at hmod
      | [a] => exact rgb24_one a
      | [a, b] => exact rgb24_two a b
      | a :: b :: c :: w =>
          have hw : w.length ≤ k := by simp at hk; omega
          have hwmod : w.length % 3 ≠ 0 := by simp at hmod ⊢; omega
          rw [rgb24_cons3, ih w hw hwmod]
          rfl

theorem rgb24_none_of_not_mod3 (v : List ℕ) (hmod : v.length % 3 ≠ 0) :
    rgb24_to_rgba32 v = none :=
  rgb24_none_of_not_mod3_aux v.length v le_rfl hmod

/-! ## Claim theorems: C6 and C10 -/

/-- Claim C10: for every input whose length is a multiple of 3, every index
access of `rgb24_to_rgba32`'s loop is in bounds — so the function cannot
panic (the model returns `some`) and its output has length `4·len/3`;
for every input whose length is not a multiple of 3 (hence non-empty),
the loop reaches an out-of-bounds index (the model returns `none`). -/
theorem rgb24_to_rgba32_safety (v : List ℕ) :
    (v.length % 3 = 0 →
      ∃ out, rgb24_to_rgba32 v = some out ∧ out.length = 4 * v.length / 3)
    ∧ (v.length % 3 ≠ 0 → rgb24_to_rgba32 v = none) := by
  constructor
  · intro hmod
    obtain ⟨out, ho, hl, _⟩ := rgb24_some_of_mod3 v hmod
    exact ⟨out, ho, hl⟩
  · exact rgb24_none_of_not_mod3 v

/-- Witness for C10 at concrete inputs: `[10, 20, 30]` (length 3) converts
to 4 bytes; `[10, 20]` (length 2) hits an out-of-bounds read. -/
theorem rgb24_to_rgba32_safety_witness :
    (∃ out, rgb24_to_rgba32 [10, 20, 30] = some out ∧ out.length = 4 * 3 / 3)
    ∧ rgb24_to_rgba32 [10, 20] = none :=
  ⟨(rgb24_to_rgba32_safety [10, 20, 30]).1 (by decide),
   (rgb24_to_rgba32_safety [10, 20]).2 (by decide)⟩

/-- Claim C6: `rgba32_to_rgb24 ∘ rgb24_to_rgba32` is the identity on every
byte vector whose length is a multiple of 3. -/
theorem rgb24_rgba32_roundtrip (v : List ℕ) (hmod : v.length % 3 = 0) :
    (rgb24_to_rgba32 v).bind rgba32_to_rgb24 = some v := by
  obtain ⟨out, ho, _, hr⟩ := rgb24_some_of_mod3 v hmod
  rw [ho, Option.some_bind]
  exact hr

/-- Witness for C6 at the concrete input `[7, 8, 9]`. -/
theorem rgb24_rgba32_roundtrip_witness :
    (rgb24_to_rgba32 [7, 8, 9]).bind rgba32_to_rgb24 = some [7, 8, 9] :=
  rgb24_rgba32_roundtrip [7, 8, 9] (by decide)

theorem rgbImageFromVec_take (w h : ℕ) (stream : List ℕ) (hc : w * h * 3 ≤ stream.length) :
    rgbImageFromVec w h (stream.take (w * h * 3)) = some (stream.take (w * h * 3)) := by
  rw [rgbImageFromVec, if_pos]
  rw [List.length_take]
  omega

theorem dispatchGo_stop (w h fps : ℕ) (ts : List TriggerFn) (stream : List ℕ) (n : ℕ)
    (hc : ¬(0 < w * h * 3 ∧ w * h * 3 ≤ stream.length)) :
    dispatchGo w h fps ts stream n = (Except.ok (), []) := by
  rw [dispatchGo, dif_neg hc]

theorem dispatchGo_step (w h fps : ℕ) (ts : List TriggerFn) (stream : List ℕ) (n : ℕ)
    (hc : 0 < w * h * 3 ∧ w * h * 3 ≤ stream.length) :
    dispatchGo w h fps ts stream n =
      ((dispatchGo w h fps ts (stream.drop (w * h * 3)) (n + 1)).1,
        (⟨stream.take (w * h * 3), n, (n : ℚ) / (fps : ℚ)⟩,
          invokeAll ts ⟨stream.take (w * h * 3), n, (n : ℚ) / (fps : ℚ)⟩) ::
          (dispatchGo w h fps ts (stream.drop (w * h * 3)) (n + 1)).2) := by
  rw [dispatchGo, dif_pos hc, rgbImageFromVec_take w h stream hc.2]

theorem streamChunks_stop (size : ℕ) (stream : List ℕ)
    (hc : ¬(0 < size ∧ size ≤ stream.length)) :
    streamChunks size stream = [] := by
  rw [streamChunks, dif_neg hc]

theorem streamChunks_step (size : ℕ) (stream : List ℕ)
    (hc : 0 < size ∧ size ≤ stream.length) :
    streamChunks size stream = stream.take size :: streamChunks size (stream.drop size) := by
  rw [streamChunks, dif_pos hc]

theorem dispatchGo_spec_aux (w h fps : ℕ) (ts : List TriggerFn) :
    ∀ k (stream : List ℕ), stream.length ≤ k → ∀ n,
      (dispatchGo w h fps ts stream n).1 = Except.ok ()
      ∧ ((dispatchGo w h fps ts stream n).2.map (fun p => p.1.frame_num)
          = List.range' n (dispatchGo w h fps ts stream n).2.length)
      ∧ ((dispatchGo w h fps ts stream n).2.map (fun p => p.1.timestamp)
          = (dispatchGo w h fps ts stream n).2.map (fun p => (p.1.frame_num : ℚ) / (fps : ℚ)))
      ∧ ((dispatchGo w h fps ts stream n).2.map (fun p => p.1.image)
          = streamChunks (w * h * 3) stream)
      ∧ ((dispatchGo w h fps ts stream n).2.map (fun p => p.2)
          = (dispatchGo w h fps ts stream n).2.map (fun p => invokeAll ts p.1)) := by
  intro k
  induction k with
  | zero =>
      intro stream hk n
      have hc : ¬(0 < w * h * 3 ∧ w * h * 3 ≤ stream.length) := by omega
      rw [dispatchGo_stop w h fps ts stream n hc, streamChunks_stop (w * h * 3) stream hc]
      simp
  | succ k ih =>
      intro stream hk n
      by_cases hc : 0 < w * h * 3 ∧ w * h * 3 ≤ stream.length
      · have hk' : (stream.drop (w * h * 3)).length ≤ k := by
          rw [List.length_drop]
          omega
        obtain ⟨ih1, ih2, ih3, ih4, ih5⟩ := ih (stream.drop (w * h * 3)) hk' (n + 1)
        rw [dispatchGo_step w h fps ts stream n hc, streamChunks_step (w * h * 3) stream hc]
        refine ⟨ih1, ?_, ?_, ?_, ?_⟩
        · simp only [List.map_cons, List.length_cons, List.range'_succ, ih2]
        · simp only [List.map_cons, ih3]
        · simp only [List.map_cons, ih4]
        · simp only [List.map_cons, ih5]
      · rw [dispatchGo_stop w h fps ts stream n hc, streamChunks_stop (w * h * 3) stream hc]
        simp

theorem dispatchGo_triggers_independent_aux (w h fps : ℕ) (ts ts' : List TriggerFn) :
    ∀ k (stream : List ℕ), stream.length ≤ k → ∀ n,
      (dispatchGo w h fps ts stream n).1 = (dispatchGo w h fps ts' stream n).1
      ∧ (dispatchGo w h fps ts stream n).2.map Prod.fst
          = (dispatchGo w h fps ts' stream n).2.map Prod.fst := by
  intro k
  induction k with
  | zero =>
      intro stream hk n
      have hc : ¬(0 < w * h * 3 ∧ w * h * 3 ≤ stream.length) := by omega
      rw [dispatchGo_stop w h fps ts stream n hc, dispatchGo_stop w h fps ts' stream n hc]
      simp
  | succ k ih =>
      intro stream hk n
      by_cases hc : 0 < w * h * 3 ∧ w * h * 3 ≤ stream.length
      · have hk' : (stream.drop (w * h * 3)).length ≤ k := by
          rw [List.length_drop]
          omega
        obtain ⟨ih1, ih2⟩ := ih (stream.drop (w * h * 3)) hk' (n + 1)
        rw [dispatchGo_step w h fps ts stream n hc, dispatchGo_step w h fps ts' stream n hc]
        exact ⟨ih1, by simp only [List.map_cons, ih2]⟩
      · rw [dispatchGo_stop w h fps ts stream n hc, dispatchGo_stop w h fps ts' stream n hc]
        simp

/-! ## Claim theorems: C1 and C2 (the dispatch loop) -/

/-- Claim C1: in every run of the dispatch loop, the i-th (0-based) full
frame read from decoder stdout is delivered with `frame_num = i`
(the delivered frame numbers are `0, 1, 2, …` — strictly increasing from 0
in steps of 1), with `timestamp = frame_num / fps` (exact division in the
model of f64), and with the i-th `w*h*3`-byte chunk of stdout as its image. -/
theorem hypetrigger_run_frame_numbering (w h fps : ℕ) (ts : List TriggerFn)
    (stream : List ℕ) :
    ((hypetriggerRun fps ts (some (w, h)) stream).2.map (fun p => p.1.frame_num)
        = List.range (hypetriggerRun fps ts (some (w, h)) stream).2.length)
    ∧ ((hypetriggerRun fps ts (some (w, h)) stream).2.map (fun p => p.1.timestamp)
        = (hypetriggerRun fps ts (some (w, h)) stream).2.map
            (fun p => (p.1.frame_num : ℚ) / (fps : ℚ)))
    ∧ ((hypetriggerRun fps ts (some (w, h)) stream).2.map (fun p => p.1.image)
        = streamChunks (w * h * 3) stream) := by
  obtain ⟨-, h2, h3, h4, -⟩ := dispatchGo_spec_aux w h fps ts stream.length stream le_rfl 0
  refine ⟨?_, h3, h4⟩
  rw [List.range_eq_range']
  exact h2

/-- Claim C2: every registered trigger is invoked (in registration order,
see `invokeAll_eq_map`) on every delivered frame, and the run's result and
the sequence of delivered frames do not depend on the triggers or the
values (`Ok` or `Err`) they return: a trigger error neither skips the
remaining triggers on the same frame (the result list is always
`invokeAll` over the full registration list) nor stops the delivery of
subsequent frames. -/
theorem dispatch_trigger_errors_harmless (w h fps : ℕ) (ts ts' : List TriggerFn)
    (stream : List ℕ) :
    ((dispatchGo w h fps ts stream 0).2.map (fun p => p.2)
        = (dispatchGo w h fps ts stream 0).2.map (fun p => invokeAll ts p.1))
    ∧ (dispatchGo w h fps ts stream 0).1 = (dispatchGo w h fps ts' stream 0).1
    ∧ ((dispatchGo w h fps ts stream 0).2.map Prod.fst
        = (dispatchGo w h fps ts' stream 0).2.map Prod.fst) := by
  obtain ⟨-, -, -, -, h5⟩ := dispatchGo_spec_aux w h fps ts stream.length stream le_rfl 0
  obtain ⟨h1, h2⟩ :=
    dispatchGo_triggers_independent_aux w h fps ts ts' stream.length stream le_rfl 0
  exact ⟨h5, h1, h2⟩

/-! ## Claim theorems: C4 and C9 (async trigger and trigger thread) -/

/-- Counterexample to claim C4: with the worker already exited (receiver
dropped, so the channel is disconnected) and a clean join,
`TriggerThread::stop` does **not** return `Ok`: the `?` on
`tx.send(TriggerCommand::Stop)` propagates the send error. -/
theorem trigger_thread_stop_counterexample :
    TriggerThread.stop ⟨100, [], false⟩ (Except.ok ()) ≠ Except.ok () := by
  simp [TriggerThread.stop, SyncChannel.send]

/-- Claim C4, amended: `stop` sends the Stop command and then joins; when the
channel is still connected, the result is the join's result, but when the
worker thread has already exited (channel disconnected), `stop` returns the
propagated send error — not `Ok`. -/
theorem trigger_thread_stop_spec (ch : SyncChannel) (joinResult : Except String Unit) :
    TriggerThread.stop ch joinResult =
      if ch.connected then joinResult
      else Except.error "sending on a closed channel" := by
  cases hc : ch.connected with
  | true =>
      cases joinResult with
      | error e => simp [TriggerThread.stop, SyncChannel.send, hc]
      | ok u => cases u; simp [TriggerThread.stop, SyncChannel.send, hc]
  | false => simp [TriggerThread.stop, SyncChannel.send, hc]

/-- Claim C9: `AsyncTrigger::on_frame` returns an error exactly when the
worker queue is disconnected; while the receiver exists it returns `Ok`
and enqueues the packet — even when the queue already holds
`capacity = 100` items, `send` blocks rather than fails (modelled by the
state-level success). `TriggerThread::spawn` creates the queue with
capacity 100. -/
theorem async_trigger_on_frame_spec (t : AsyncTrigger) (ch : SyncChannel) (f : Frame) :
    ((∃ e, t.on_frame ch f = Except.error e) ↔ ch.connected = false)
    ∧ (t.on_frame ch f =
        if ch.connected then
          Except.ok ⟨ch.capacity, ch.queue ++ [TriggerCommand.Packet f t.trigger], ch.connected⟩
        else Except.error "sending on a closed channel")
    ∧ TriggerThread.spawnChannel.capacity = 100 := by
  refine ⟨?_, ?_, rfl⟩
  · cases hc : ch.connected with
    | true => simp [AsyncTrigger.on_frame, SyncChannel.send, hc]
    | false =>
        refine ⟨fun _ => rfl, fun _ => ⟨"sending on a closed channel", ?_⟩⟩
        simp [AsyncTrigger.on_frame, SyncChannel.send, hc]
  · cases hc : ch.connected with
    | true => simp [AsyncTrigger.on_frame, SyncChannel.send, hc]
    | false => simp [AsyncTrigger.on_frame, SyncChannel.send, hc]

/-! ## Claim theorems: C3 (decoder exits before sending output size) -/

/-- Counterexample to claim C3 as stated: the error returned by `run` when
the size channel closes without a published size is **not** the string
"decoder exited before sending output size" (the source message names
ffmpeg and carries an extra sentence). -/
theorem run_no_size_message_counterexample :
    (hypetriggerRun 2 [] none []).1 ≠
      Except.error "decoder exited before sending output size" := by
  simp only [hypetriggerRun]
  intro h
  exact absurd (Except.error.inj h) (by decide)

/-- Claim C3, amended: if the decoder's stderr closes before an output size
is published (`recv()` fails, modelled by `published = none`), `run` returns
the error "ffmpeg exited before sending output size. This is likely due to
an invalid input file." and no trigger is ever invoked (empty trace). -/
theorem run_no_size_error_and_no_trigger (fps : ℕ) (triggers : List TriggerFn)
    (stream : List ℕ) :
    hypetriggerRun fps triggers none stream =
      (Except.error
        "ffmpeg exited before sending output size. This is likely due to an invalid input file.",
       []) :=
  rfl

/-! ## Claim theorems: C7 (the Crop pixel rectangle) -/

/-- Counterexample to claim C7: for a 1×1 image and the crop
(left, top, width, height) = (0, 0, 50, 50) — all four percentages in
[0, 100] — the computed rectangle is x₁ = y₁ = x₂ = y₂ = 0, so the claimed
invariant x₁ < x₂ (and y₁ < y₂) fails. -/
theorem crop_rect_counterexample :
    Crop.rect ⟨0, 0, 50, 50⟩ 1 1 = ⟨0, 0, 0, 0⟩
    ∧ ¬(Crop.rect ⟨0, 0, 50, 50⟩ 1 1).x1 < (Crop.rect ⟨0, 0, 50, 50⟩ 1 1).x2 := by
  have h : Crop.rect ⟨0, 0, 50, 50⟩ 1 1 = ⟨0, 0, 0, 0⟩ := by
    simp only [Crop.rect, ratToU32, u32Max]
    norm_num
  refine ⟨h, ?_⟩
  rw [h]
  decide

/-- One axis of the amended crop invariant, over exact rational arithmetic:
if the crop percentages are nonnegative with `lp + wp ≤ 100` and the
scaled width is at least one pixel (`100 ≤ N·wp`), then
`x₁ < x₂ ≤ N` for `x₁ = (N·(lp/100)) as u32` and
`x₂ = (x₁ + wp·N/100) as u32`. -/
theorem crop_axis_bounds (N : ℕ) (lp wp : ℚ)
    (hN1 : 1 ≤ N) (hNmax : N ≤ u32Max)
    (hl0 : 0 ≤ lp) (hw0 : 0 ≤ wp) (hsum : lp + wp ≤ 100) (hmin : 100 ≤ (N : ℚ) * wp) :
    ratToU32 ((N : ℚ) * (lp / 100)) <
      ratToU32 ((ratToU32 ((N : ℚ) * (lp / 100)) : ℚ) + wp * (N : ℚ) / 100)
    ∧ ratToU32 ((ratToU32 ((N : ℚ) * (lp / 100)) : ℚ) + wp * (N : ℚ) / 100) ≤ N := by
  have hN0 : (0 : ℚ) ≤ (N : ℚ) := by positivity
  set a : ℚ := (N : ℚ) * (lp / 100) with ha
  set b : ℚ := wp * (N : ℚ) / 100 with hb
  have ha0 : 0 ≤ a := by rw [ha]; positivity
  have hb1 : (1 : ℚ) ≤ b := by
    rw [hb, le_div_iff₀ (by norm_num : (0 : ℚ) < 100)]
    linarith [hmin]
  have hab : a + b ≤ (N : ℚ) := by
    have h1 : (N : ℚ) * (lp + wp) ≤ (N : ℚ) * 100 := mul_le_mul_of_nonneg_left hsum hN0
    rw [ha, hb]
    nlinarith [h1]
  have hfa0 : 0 ≤ ⌊a⌋ := Int.floor_nonneg.mpr ha0
  set x1 : ℕ := ratToU32 a with hx1def
  have hx1a : (x1 : ℚ) ≤ a := by
    have h1 : x1 ≤ ⌊a⌋.toNat := by rw [hx1def, ratToU32]; exact min_le_left _ _
    have h2 : (x1 : ℤ) ≤ ⌊a⌋ := by omega
    calc (x1 : ℚ) = (((x1 : ℤ) : ℚ)) := by push_cast; ring
      _ ≤ ((⌊a⌋ : ℤ) : ℚ) := by exact_mod_cast h2
      _ ≤ a := Int.floor_le a
  have hx1top : (x1 : ℚ) + 1 ≤ (N : ℚ) := by linarith
  have hx1N : x1 + 1 ≤ N := by exact_mod_cast hx1top
  have hm2lo : (x1 : ℤ) + 1 ≤ ⌊(x1 : ℚ) + b⌋ := by
    apply Int.le_floor.mpr
    push_cast
    linarith
  have hm2hi : ⌊(x1 : ℚ) + b⌋ ≤ (N : ℤ) := by
    have h1 : (x1 : ℚ) + b ≤ (N : ℚ) := by linarith
    calc ⌊(x1 : ℚ) + b⌋ ≤ ⌊(N : ℚ)⌋ := Int.floor_le_floor h1
      _ = (N : ℤ) := Int.floor_natCast N
  have hu : x1 + 1 ≤ u32Max := le_trans hx1N hNmax
  rw [ratToU32]
  constructor
  · omega
  · omega

/-- Claim C7, amended: for an image with `1 ≤ W ≤ u32::MAX`,
`1 ≤ H ≤ u32::MAX` and a crop whose percentages are nonnegative and
additionally satisfy `left + width ≤ 100`, `top + height ≤ 100` and
`W·width ≥ 100`, `H·height ≥ 100` (each crop dimension is at least one
pixel), the rectangle computed by `Crop::apply` satisfies
`x₁ < x₂ ≤ W` and `y₁ < y₂ ≤ H`. -/
theorem crop_rect_amended (W H : ℕ) (c : Crop)
    (hW1 : 1 ≤ W) (hWmax : W ≤ u32Max) (hH1 : 1 ≤ H) (hHmax : H ≤ u32Max)
    (hl0 : 0 ≤ c.left_percent) (ht0 : 0 ≤ c.top_percent)
    (hw0 : 0 ≤ c.width_percent) (hh0 : 0 ≤ c.height_percent)
    (hlw : c.left_percent + c.width_percent ≤ 100)
    (hth : c.top_percent + c.height_percent ≤ 100)
    (hwm : 100 ≤ (W : ℚ) * c.width_percent) (hhm : 100 ≤ (H : ℚ) * c.height_percent) :
    (c.rect W H).x1 < (c.rect W H).x2 ∧ (c.rect W H).x2 ≤ W
    ∧ (c.rect W H).y1 < (c.rect W H).y2 ∧ (c.rect W H).y2 ≤ H := by
  obtain ⟨hx1, hx2⟩ :=
    crop_axis_bounds W c.left_percent c.width_percent hW1 hWmax hl0 hw0 hlw hwm
  obtain ⟨hy1, hy2⟩ :=
    crop_axis_bounds H c.top_percent c.height_percent hH1 hHmax ht0 hh0 hth hhm
  simp only [Crop.rect]
  exact ⟨hx1, hx2, hy1, hy2⟩

/-- Witness for the amended C7 at `W = H = 100` and the full-image crop
(0, 0, 100, 100). -/
theorem crop_rect_amended_witness :
    (Crop.rect ⟨0, 0, 100, 100⟩ 100 100).x1 < (Crop.rect ⟨0, 0, 100, 100⟩ 100 100).x2
    ∧ (Crop.rect ⟨0, 0, 100, 100⟩ 100 100).x2 ≤ 100
    ∧ (Crop.rect ⟨0, 0, 100, 100⟩ 100 100).y1 < (Crop.rect ⟨0, 0, 100, 100⟩ 100 100).y2
    ∧ (Crop.rect ⟨0, 0, 100, 100⟩ 100 100).y2 ≤ 100 :=
  crop_rect_amended 100 100 ⟨0, 0, 100, 100⟩ (by decide) (by decide) (by decide) (by decide)
    (by norm_num) (by norm_num) (by norm_num) (by norm_num) (by norm_num) (by norm_num)
    (by norm_num) (by norm_num)

/-! ## Claim theorems: C8 (`ensure_minimum_size`) -/

theorem minSizeFirstPass_of_lt (W H m : ℕ) (hWm : W < m) :
    minSizeFirstPass W H m =
      (ratToU32 ((W : ℚ) * ((m : ℚ) / (W : ℚ))),
       ratToU32 ((H : ℚ) * ((m : ℚ) / (W : ℚ)))) := by
  rw [minSizeFirstPass, if_pos hWm]

theorem minSizeFirstPass_of_ge (W H m : ℕ) (hWm : ¬W < m) :
    minSizeFirstPass W H m = (W, H) := by
  rw [minSizeFirstPass, if_neg hWm]

theorem ensure_minimum_size_eq (W H m : ℕ) :
    ensure_minimum_size W H m =
      if (minSizeFirstPass W H m).2 < m then
        (ratToU32 (((minSizeFirstPass W H m).1 : ℚ) *
            ((m : ℚ) / ((minSizeFirstPass W H m).2 : ℚ))),
         ratToU32 (((minSizeFirstPass W H m).2 : ℚ) *
            ((m : ℚ) / ((minSizeFirstPass W H m).2 : ℚ))))
      else minSizeFirstPass W H m :=
  rfl

theorem ratToU32_self_scale (n m : ℕ) (hn : 1 ≤ n) (hmu : m ≤ u32Max) :
    ratToU32 ((n : ℚ) * ((m : ℚ) / (n : ℚ))) = m := by
  have hn0 : (0 : ℚ) < (n : ℚ) := by exact_mod_cast (by omega : 0 < n)
  have he : (n : ℚ) * ((m : ℚ) / (n : ℚ)) = (m : ℚ) := by field_simp
  rw [he, ratToU32, Int.floor_natCast]
  omega

theorem ratToU32_ge (q : ℚ) (m : ℕ) (hq : (m : ℚ) ≤ q) (hmu : m ≤ u32Max) :
    m ≤ ratToU32 q := by
  have h1 : (m : ℤ) ≤ ⌊q⌋ := Int.le_floor.mpr (by exact_mod_cast hq)
  rw [ratToU32]
  omega

/-- Counterexample to claim C8: for the 21×1 image and `m = 32`, both
rescale branches fire (21 < 32, then `⌊1·32/21⌋ = 1 < 32`) and the output
is 1024×32 — no uniform scale maps 21×1 to within one pixel of 1024×32,
so the aspect ratio is not preserved to within one pixel. -/
theorem ensure_minimum_size_counterexample :
    ensure_minimum_size 21 1 32 = (1024, 32)
    ∧ ¬aspectWithinOnePixel 21 1 1024 32 := by
  constructor
  · have hfp : minSizeFirstPass 21 1 32 = (32, 1) := by
      rw [minSizeFirstPass_of_lt 21 1 32 (by norm_num)]
      norm_num [ratToU32, u32Max]
      omega
    rw [ensure_minimum_size_eq, hfp]
    norm_num [ratToU32, u32Max]
    omega
  · rintro ⟨s, hs, h1, h2⟩
    rw [abs_le] at h1 h2
    push_cast at h1 h2
    linarith [h1.1, h2.2]

/-- Claim C8, amended: for `1 ≤ W`, `1 ≤ H`, `1 ≤ m ≤ u32::MAX`,
`ensure_minimum_size` returns dimensions with `min(W', H') ≥ m`, and when
`min(W, H) ≥ m` already, the dimensions are unchanged. (The aspect-ratio
part of the claim is dropped: it fails whenever both rescale branches
fire, see the counterexample.) -/
theorem ensure_minimum_size_amended (W H m : ℕ) (hW : 1 ≤ W) (hH : 1 ≤ H) (hm : 1 ≤ m)
    (hmu : m ≤ u32Max) :
    (m ≤ (ensure_minimum_size W H m).1 ∧ m ≤ (ensure_minimum_size W H m).2)
    ∧ (m ≤ W → m ≤ H → ensure_minimum_size W H m = (W, H)) := by
  constructor
  · by_cases hWm : W < m
    · have hfp : minSizeFirstPass W H m = (m, ratToU32 ((H : ℚ) * ((m : ℚ) / (W : ℚ)))) := by
        rw [minSizeFirstPass_of_lt W H m hWm, ratToU32_self_scale W m hW hmu]
      rw [ensure_minimum_size_eq, hfp]
      by_cases hh1m : ratToU32 ((H : ℚ) * ((m : ℚ) / (W : ℚ))) < m
      · rw [if_pos hh1m]
        have hW0 : (0 : ℚ) < (W : ℚ) := by exact_mod_cast (by omega : 0 < W)
        have hdiv : (1 : ℚ) < (m : ℚ) / (W : ℚ) := by
          rw [one_lt_div hW0]
          exact_mod_cast hWm
        have hHq : (1 : ℚ) ≤ (H : ℚ) := by exact_mod_cast hH
        have h1ge1 : 1 ≤ ratToU32 ((H : ℚ) * ((m : ℚ) / (W : ℚ))) := by
          apply ratToU32_ge _ 1 (by nlinarith) (by rw [u32Max]; omega)
        have hh1q : (0 : ℚ) < ((ratToU32 ((H : ℚ) * ((m : ℚ) / (W : ℚ))) : ℕ) : ℚ) := by
          exact_mod_cast (by omega : 0 < ratToU32 ((H : ℚ) * ((m : ℚ) / (W : ℚ))))
        have hh1le : ((ratToU32 ((H : ℚ) * ((m : ℚ) / (W : ℚ))) : ℕ) : ℚ) ≤ (m : ℚ) := by
          exact_mod_cast (by omega : ratToU32 ((H : ℚ) * ((m : ℚ) / (W : ℚ))) ≤ m)
        have hdiv2 : (1 : ℚ) ≤ (m : ℚ) / ((ratToU32 ((H : ℚ) * ((m : ℚ) / (W : ℚ))) : ℕ) : ℚ) := by
          rw [le_div_iff₀ hh1q]
          linarith
        have hm0 : (0 : ℚ) ≤ (m : ℚ) := by positivity
        constructor
        · exact ratToU32_ge _ m (by nlinarith) hmu
        · rw [ratToU32_self_scale _ m h1ge1 hmu]
      · rw [if_neg hh1m]
        exact ⟨le_rfl, by omega⟩
    · rw [ensure_minimum_size_eq, minSizeFirstPass_of_ge W H m hWm]
      by_cases hHm : H < m
      · rw [if_pos hHm]
        have hH0 : (0 : ℚ) < (H : ℚ) := by exact_mod_cast (by omega : 0 < H)
        have hdiv : (1 : ℚ) ≤ (m : ℚ) / (H : ℚ) := by
          rw [one_le_div hH0]
          exact_mod_cast (by omega : H ≤ m)
        have hWq : (m : ℚ) ≤ (W : ℚ) := by exact_mod_cast (by omega : m ≤ W)
        have hm0 : (0 : ℚ) ≤ (m : ℚ) := by positivity
        constructor
        · exact ratToU32_ge _ m (by nlinarith) hmu
        · rw [ratToU32_self_scale H m hH hmu]
      · rw [if_neg hHm]
        exact ⟨by omega, by omega⟩
  · intro hmW hmH
    rw [ensure_minimum_size_eq, minSizeFirstPass_of_ge W H m (by omega)]
    rw [if_neg (by omega)]

/-- Witness for the amended C8 at `W = H = m = 1` (already large enough:
unchanged) — and hence `min(W', H') ≥ 1`. -/
theorem ensure_minimum_size_amended_witness :
    (1 ≤ (ensure_minimum_size 1 1 1).1 ∧ 1 ≤ (ensure_minimum_size 1 1 1).2)
    ∧ (1 ≤ 1 → 1 ≤ 1 → ensure_minimum_size 1 1 1 = (1, 1)) :=
  ensure_minimum_size_amended 1 1 1 le_rfl le_rfl le_rfl (by rw [u32Max]; omega)

/-! ## Claim theorems: C5 (the threshold filter)

The CIELAB facts below are exact: black maps to Lab (0, 0, 0) (all three
sRGB channels take the linear branch and all three XYZ components take the
`7.787·t + 16/116` branch, which cancels to L = 0), white has L = 100
(its Y component is exactly 1), and `delta_e c c = 0` for every color.
Whenever one endpoint is achromatic (a = b = 0 in Lab), `delta_e` is
bounded below by the luminance difference |ΔL|. -/

theorem lab_black : rgb2lab ⟨0, 0, 0⟩ = (0, 0, 0) := by
  simp only [rgb2lab]
  norm_num

theorem lab_white_fst : (rgb2lab ⟨255, 255, 255⟩).1 = 100 := by
  simp only [rgb2lab]
  norm_num [Real.one_rpow]

theorem delta_e_self (c : Rgb) : delta_e c c = 0 := by
  simp only [delta_e, sub_self, zero_div, mul_zero, zero_mul, add_zero, zero_add,
    Real.sqrt_zero]
  norm_num

theorem delta_e_ge_of_gray_fst (ca cb : Rgb) (ha : (rgb2lab ca).2.1 = 0)
    (hb : (rgb2lab ca).2.2 = 0) :
    |(rgb2lab ca).1 - (rgb2lab cb).1| ≤ delta_e ca cb := by
  simp only [delta_e, ha, hb]
  have hc2sq : Real.sqrt ((rgb2lab cb).2.1 * (rgb2lab cb).2.1 +
        (rgb2lab cb).2.2 * (rgb2lab cb).2.2)
      * Real.sqrt ((rgb2lab cb).2.1 * (rgb2lab cb).2.1 + (rgb2lab cb).2.2 * (rgb2lab cb).2.2)
      = (rgb2lab cb).2.1 * (rgb2lab cb).2.1 + (rgb2lab cb).2.2 * (rgb2lab cb).2.2 :=
    Real.mul_self_sqrt (add_nonneg (mul_self_nonneg _) (mul_self_nonneg _))
  norm_num [hc2sq]
  have hS : 0 ≤ (rgb2lab cb).2.1 * (rgb2lab cb).2.1 + (rgb2lab cb).2.2 * (rgb2lab cb).2.2 :=
    add_nonneg (mul_self_nonneg _) (mul_self_nonneg _)
  have hL := mul_self_nonneg ((rgb2lab ca).1 - (rgb2lab cb).1)
  rw [if_neg (by nlinarith)]
  rw [← Real.sqrt_mul_self_eq_abs]
  exact Real.sqrt_le_sqrt (by nlinarith)

theorem delta_e_ge_of_gray_snd (ca cb : Rgb) (ha : (rgb2lab cb).2.1 = 0)
    (hb : (rgb2lab cb).2.2 = 0) :
    |(rgb2lab ca).1 - (rgb2lab cb).1| ≤ delta_e ca cb := by
  simp only [delta_e, ha, hb]
  have hc1sq : Real.sqrt ((rgb2lab ca).2.1 * (rgb2lab ca).2.1 +
        (rgb2lab ca).2.2 * (rgb2lab ca).2.2)
      * Real.sqrt ((rgb2lab ca).2.1 * (rgb2lab ca).2.1 + (rgb2lab ca).2.2 * (rgb2lab ca).2.2)
      = (rgb2lab ca).2.1 * (rgb2lab ca).2.1 + (rgb2lab ca).2.2 * (rgb2lab ca).2.2 :=
    Real.mul_self_sqrt (add_nonneg (mul_self_nonneg _) (mul_self_nonneg _))
  norm_num [hc1sq]
  set A := (rgb2lab ca).1 - (rgb2lab cb).1 with hA
  set C := Real.sqrt ((rgb2lab ca).2.1 * (rgb2lab ca).2.1 + (rgb2lab ca).2.2 * (rgb2lab ca).2.2)
    with hC
  have hQ := mul_self_nonneg (C / (1 + 9 / 200 * C))
  have hL := mul_self_nonneg A
  rw [if_neg (by nlinarith), ← Real.sqrt_mul_self_eq_abs]
  exact Real.sqrt_le_sqrt (by nlinarith)

theorem delta_e_black_white : (50 : ℝ) ≤ delta_e ⟨0, 0, 0⟩ ⟨255, 255, 255⟩ := by
  have h := delta_e_ge_of_gray_fst ⟨0, 0, 0⟩ ⟨255, 255, 255⟩ (by rw [lab_black])
    (by rw [lab_black])
  rw [lab_black, lab_white_fst] at h
  norm_num at h
  linarith

theorem delta_e_white_black : (50 : ℝ) ≤ delta_e ⟨255, 255, 255⟩ ⟨0, 0, 0⟩ := by
  have h := delta_e_ge_of_gray_snd ⟨255, 255, 255⟩ ⟨0, 0, 0⟩ (by rw [lab_black])
    (by rw [lab_black])
  rw [lab_black, lab_white_fst] at h
  norm_num at h
  linarith

theorem thresholdPixel_cases (color : Rgb) (t : ℝ) (r g b : ℕ) :
    thresholdPixel color t r g b = 255 ∨ thresholdPixel color t r g b = 0 := by
  rw [thresholdPixel]
  split
  · exact Or.inl rfl
  · exact Or.inr rfl

theorem thresholdPixel_idem (color : Rgb) (t : ℝ)
    (hwhite : t ≤ delta_e ⟨255, 255, 255⟩ color) (hblack : delta_e ⟨0, 0, 0⟩ color < t)
    (p : ℕ) (hp : p = 255 ∨ p = 0) :
    thresholdPixel color t p p p = p := by
  rcases hp with h | h <;> subst h
  · rw [thresholdPixel, if_pos hwhite]
  · rw [thresholdPixel, if_neg (not_le.mpr hblack)]

theorem threshold_one (color : Rgb) (t : ℝ) (a : ℕ) :
    threshold_color_distance_rgba [a] color t = none := by
  rw [threshold_color_distance_rgba, threshold_go, if_pos (by simp)]
  simp

theorem threshold_two (color : Rgb) (t : ℝ) (a b : ℕ) :
    threshold_color_distance_rgba [a, b] color t = none := by
  rw [threshold_color_distance_rgba, threshold_go, if_pos (by simp)]
  simp

theorem threshold_three (color : Rgb) (t : ℝ) (a b c : ℕ) :
    threshold_color_distance_rgba [a, b, c] color t =
      some [thresholdPixel color t a b c, thresholdPixel color t a b c,
        thresholdPixel color t a b c, 255] := by
  rw [threshold_color_distance_rgba]
  conv_lhs => rw [threshold_go]
  rw [if_pos (show (0 : ℕ) < ([a, b, c] : List ℕ).length by simp)]
  rw [threshold_go_stop color t [a, b, c] (0 + 4) (by simp)]
  simp only [show (0 : ℕ) + 2 = 0 + 1 + 1 from rfl, List.getElem?_cons_succ,
    List.getElem?_cons_zero]
  rfl

theorem threshold_rgba_idem_aux (color : Rgb) (t : ℝ)
    (hwhite : t ≤ delta_e ⟨255, 255, 255⟩ color) (hblack : delta_e ⟨0, 0, 0⟩ color < t) :
    ∀ k (v : List ℕ), v.length ≤ k → ∀ out,
      threshold_color_distance_rgba v color t = some out →
      threshold_color_distance_rgba out color t = some out := by
  intro k
  induction k with
  | zero =>
      intro v hk out h
      have hv : v = [] := List.eq_nil_of_length_eq_zero (by omega)
      subst hv
      rw [threshold_nil color t] at h
      cases h
      exact threshold_nil color t
  | succ k ih =>
      intro v hk out h
      match v with
      | [] =>
          rw [threshold_nil color t] at h
          cases h
          exact threshold_nil color t
      | [a] => rw [threshold_one color t a] at h; cases h
      | [a, b] => rw [threshold_two color t a b] at h; cases h
      | [a, b, c] =>
          rw [threshold_three color t a b c] at h
          cases h
          rw [threshold_cons4, threshold_nil color t]
          rw [thresholdPixel_idem color t hwhite hblack _ (thresholdPixel_cases color t a b c)]
          rfl
      | a :: b :: c :: d :: w =>
          rw [threshold_cons4] at h
          cases hw : threshold_color_distance_rgba w color t with
          | none => rw [hw] at h; cases h
          | some ow =>
              rw [hw] at h
              cases h
              have ihw := ih w (by simp at hk; omega) ow hw
              rw [threshold_cons4, ihw]
              rw [thresholdPixel_idem color t hwhite hblack _
                (thresholdPixel_cases color t a b c)]
              rfl

/-- Counterexample to claim C5: the threshold filter is **not** idempotent.
Filter (target white (255,255,255), threshold 50) on the single black RGBA
pixel [0,0,0,255]: the first application produces white [255,255,255,255]
(ΔE(black, white) ≥ 50), and the second application maps it back to black
[0,0,0,255] (ΔE(white, white) = 0 < 50). -/
theorem threshold_filter_not_idempotent :
    (ThresholdFilter.apply ⟨255, 255, 255, 50⟩ ⟨[0, 0, 0, 255], 1, 1⟩).bind
        (ThresholdFilter.apply ⟨255, 255, 255, 50⟩)
      ≠ ThresholdFilter.apply ⟨255, 255, 255, 50⟩ ⟨[0, 0, 0, 255], 1, 1⟩ := by
  have hpix1 : thresholdPixel ⟨255, 255, 255⟩ ((50 : ℕ) : ℝ) 0 0 0 = 255 := by
    rw [thresholdPixel, if_pos]
    have := delta_e_black_white
    push_cast
    linarith
  have hpix2 : thresholdPixel ⟨255, 255, 255⟩ ((50 : ℕ) : ℝ) 255 255 255 = 0 := by
    rw [thresholdPixel, if_neg]
    rw [delta_e_self]
    push_cast
    norm_num
  have h1 : ThresholdFilter.apply ⟨255, 255, 255, 50⟩ ⟨[0, 0, 0, 255], 1, 1⟩ =
      some ⟨[255, 255, 255, 255], 1, 1⟩ := by
    rw [ThresholdFilter.apply]
    simp only [threshold_cons4, threshold_nil, hpix1]
    rfl
  have h2 : ThresholdFilter.apply ⟨255, 255, 255, 50⟩ ⟨[255, 255, 255, 255], 1, 1⟩ =
      some ⟨[0, 0, 0, 255], 1, 1⟩ := by
    rw [ThresholdFilter.apply]
    simp only [threshold_cons4, threshold_nil, hpix2]
    rfl
  rw [h1, Option.some_bind, h2]
  simp

/-- Claim C5, amended: the threshold filter is idempotent **provided** the
filter separates the two output colors correctly — ΔE(white, target) ≥
threshold and ΔE(black, target) < threshold (then every output pixel is a
fixed point of the binarization); without this proviso a second application
can change the image, see the counterexample. -/
theorem threshold_filter_idempotent_amended (f : ThresholdFilter) (img out : PhotonImage)
    (hwhite : (f.threshold : ℝ) ≤ delta_e ⟨255, 255, 255⟩ ⟨f.r, f.g, f.b⟩)
    (hblack : delta_e ⟨0, 0, 0⟩ ⟨f.r, f.g, f.b⟩ < (f.threshold : ℝ))
    (happly : f.apply img = some out) :
    f.apply out = some out := by
  rw [ThresholdFilter.apply] at happly
  cases hv : threshold_color_distance_rgba img.raw_pixels ⟨f.r, f.g, f.b⟩ (f.threshold : ℝ) with
  | none => rw [hv] at happly; cases happly
  | some po =>
      rw [hv] at happly
      cases happly
      rw [ThresholdFilter.apply]
      have hidem := threshold_rgba_idem_aux ⟨f.r, f.g, f.b⟩ (f.threshold : ℝ) hwhite hblack
        img.raw_pixels.length img.raw_pixels le_rfl po hv
      simp only [hidem]
      rfl

/-- Witness for the amended C5: filter (target black (0,0,0), threshold 50)
on the single black pixel [0,0,0,255]; the filter output is again
[0,0,0,255] and a second application leaves it unchanged. -/
theorem threshold_filter_idempotent_amended_witness :
    ThresholdFilter.apply ⟨0, 0, 0, 50⟩ ⟨[0, 0, 0, 255], 1, 1⟩ =
      some ⟨[0, 0, 0, 255], 1, 1⟩ :=
  threshold_filter_idempotent_amended ⟨0, 0, 0, 50⟩ ⟨[0, 0, 0, 255], 1, 1⟩
    ⟨[0, 0, 0, 255], 1, 1⟩
    (by
      have := delta_e_white_black
      push_cast
      linarith)
    (by
      rw [delta_e_self]
      push_cast
      norm_num)
    (by
      rw [ThresholdFilter.apply]
      have hpix : thresholdPixel ⟨0, 0, 0⟩ ((50 : ℕ) : ℝ) 0 0 0 = 0 := by
        rw [thresholdPixel, if_neg]
        rw [delta_e_self]
        push_cast
        norm_num
      simp only [threshold_cons4, threshold_nil, hpix]
      rfl)

end Hypetrigger
